import Mathlib

/-!
Verification of `EddyTracks.py` (eddy-characteristics repository).

Shallow embedding of the core numeric functions:
  * `fillCoords` (gap filling of track coordinates), with longitudes and
    latitudes modelled as exact rationals and steps as integers;
  * `haversine` / `geodist` (great-circle distance and its accumulation),
    modelled over the reals.

The Python error behaviour (`raise ValueError`) is modelled with
`Except String`: a raised exception discards all partial output, exactly as
an `Except.error` result carries no payload.
-/

/-- `np.arange(lo, hi, 1.)`: the integers `lo, lo+1, ..., hi-1` (empty when
`hi ≤ lo`). -/
def arangeZ (lo hi : ℤ) : List ℤ :=
  (List.range (hi - lo).toNat).map (fun k : ℕ => lo + (k : ℤ))

/-- `np.ones(n)`: a list of `n` ones. -/
def npOnes (n : ℕ) : List ℚ :=
  List.replicate n 1

/-- `np.linspace(a, b, num=n)` with the default inclusive endpoint:
`n` evenly spaced samples from `a` to `b`.  For `n = 1` numpy returns `[a]`,
and for `n ≥ 2` the samples are `a + (b-a)·k/(n-1)` for `k = 0 .. n-1`. -/
def linspace (a b : ℚ) (n : ℕ) : List ℚ :=
  if n ≤ 1 then List.replicate n a
  else (List.range n).map (fun k : ℕ => a + (b - a) * (k : ℚ) / ((n : ℚ) - 1))

/-- The fill values computed for one gap in `fillCoords`, for one coordinate
component: `prevC` is the coordinate just before the gap (`trackLons[i-1]` /
`trackLats[i-1]`), `c` the coordinate just after (`lon` / `lat`), and `n` the
number of synthesized steps (`numFill = len(stepFill)`).  Mirrors the
`if fill == ... / elif ... / else raise ValueError` dispatch of the source. -/
def gapFill (fill : String) (prevC c : ℚ) (n : ℕ) : Except String (List ℚ) :=
  if fill = "midpoint" then .ok ((npOnes n).map (· * ((c + prevC) / 2)))
  else if fill = "linear" then .ok (linspace prevC c n)
  else if fill = "begin" then .ok ((npOnes n).map (· * prevC))
  else if fill = "end" then .ok ((npOnes n).map (· * c))
  else .error "Invalid fill type."

/-- The loop of `fillCoords`: `prev`, `pLon`, `pLat` carry the step and
coordinates of the previous iteration (`prev`, `trackLons[i-1]`,
`trackLats[i-1]`); the three lists are the remaining suffix of the inputs.
Each iteration emits the gap fill (when `step - prev > 1`) followed by the
current point; an unknown mode at a gap aborts with the `ValueError`,
producing no output at all. -/
def fillCoordsAux (fill : String) :
    ℤ → ℚ → ℚ → List ℤ → List ℚ → List ℚ →
      Except String (List ℤ × List ℚ × List ℚ)
  | _, _, _, [], _, _ => .ok ([], [], [])
  | prev, pLon, pLat, step :: ss, lon :: ls, lat :: ts =>
    if step - prev > 1 then
      match gapFill fill pLon lon (arangeZ (prev + 1) step).length,
            gapFill fill pLat lat (arangeZ (prev + 1) step).length,
            fillCoordsAux fill step lon lat ss ls ts with
      | .error e, _, _ => .error e
      | .ok _, .error e, _ => .error e
      | .ok _, .ok _, .error e => .error e
      | .ok lonFill, .ok latFill, .ok (rs, rl, rt) =>
        .ok (arangeZ (prev + 1) step ++ step :: rs,
             lonFill ++ lon :: rl, latFill ++ lat :: rt)
    else
      match fillCoordsAux fill step lon lat ss ls ts with
      | .error e => .error e
      | .ok (rs, rl, rt) => .ok (step :: rs, lon :: rl, lat :: rt)
  | _, _, _, _ :: _, [], _ => .error "list index out of range"
  | _, _, _, _ :: _, _ :: _, [] => .error "list index out of range"

/-- `fillCoords(trackSteps, trackLons, trackLats, fill)`: finds gaps in the
timesteps and fills coordinates using the selected interpolation.  `prev` is
initialised to `trackSteps[0]`, so the first iteration never takes the gap
branch and the initial carried coordinates are irrelevant; an empty input
raises an index error (`trackSteps[0]`). -/
def fillCoords (trackSteps : List ℤ) (trackLons trackLats : List ℚ)
    (fill : String) : Except String (List ℤ × List ℚ × List ℚ) :=
  match trackSteps, trackLons, trackLats with
  | s :: _, l :: _, t :: _ => fillCoordsAux fill s l t trackSteps trackLons trackLats
  | _, _, _ => .error "list index out of range"

/-- The contiguous integer range `a, a+1, ..., b` (empty when `b < a`);
specification-side description of a dense step sequence. -/
def rangeZ (a b : ℤ) : List ℤ :=
  (List.range (b + 1 - a).toNat).map (fun k : ℕ => a + (k : ℤ))

/-! ### The geodesic distance accumulator -/

/-- `np.radians(x)`: convert degrees to radians. -/
noncomputable def radians (x : ℝ) : ℝ :=
  x * Real.pi / 180

/-- `np.arctan2(y, x)`: the quadrant-aware arctangent. -/
noncomputable def arctan2 (y x : ℝ) : ℝ :=
  if 0 < x then Real.arctan (y / x)
  else if x < 0 then
    (if 0 ≤ y then Real.arctan (y / x) + Real.pi else Real.arctan (y / x) - Real.pi)
  else
    (if 0 < y then Real.pi / 2 else if y < 0 then -(Real.pi / 2) else 0)

/-- `haversine(lon1, lat1, lon2, lat2)`: distance between two geographic
coordinates via the haversine formula, with Earth radius `R = 6373` km.
The source computes `a = sin²(dlat/2) + cos(lat1)·cos(lat2)·sin²(dlon/2)`
and `c = 2·arctan2(√a, √(1-a))`, returning `R·c`. -/
noncomputable def haversine (lon1 lat1 lon2 lat2 : ℝ) : ℝ :=
  6373 *
    (2 * arctan2
      (Real.sqrt (Real.sin ((radians lat2 - radians lat1) / 2) ^ 2 +
        Real.cos (radians lat1) * Real.cos (radians lat2) *
          Real.sin ((radians lon2 - radians lon1) / 2) ^ 2))
      (Real.sqrt (1 - (Real.sin ((radians lat2 - radians lat1) / 2) ^ 2 +
        Real.cos (radians lat1) * Real.cos (radians lat2) *
          Real.sin ((radians lon2 - radians lon1) / 2) ^ 2))))

/-- The loop of `geodist`: `dist` is the running total, the first two
arguments carry the previous point (`prevLon`, `prevLat`), and the list holds
the remaining points; each iteration adds the distance from the previous
point to the current one. -/
noncomputable def geodistLoop (dist : ℝ) : ℝ → ℝ → List (ℝ × ℝ) → ℝ
  | _, _, [] => dist
  | pLon, pLat, (lon, lat) :: rest =>
    geodistLoop (dist + haversine pLon pLat lon lat) lon lat rest

/-- `geodist(lons, lats)`: total distance travelled along the track.  The
length check raises before any accumulation; the `i > 0` guard in the loop
means the first point only initialises the previous-point state. -/
noncomputable def geodist (lons lats : List ℝ) : Except String ℝ :=
  if lons.length ≠ lats.length then
    .error "Coordinate lists must have the same length."
  else
    match lons.zip lats with
    | [] => .ok 0
    | (l, t) :: rest => .ok (geodistLoop 0 l t rest)

/-- Specification-side description of the accumulated distance: the sum of
`haversine` over every consecutive pair of points, in input order. -/
noncomputable def pairwiseSum : List (ℝ × ℝ) → ℝ
  | (l1, t1) :: (l2, t2) :: rest =>
    haversine l1 t1 l2 t2 + pairwiseSum ((l2, t2) :: rest)
  | _ => 0

/-! ### Basic facts about the integer ranges and the fill values -/

theorem arangeZ_length (lo hi : ℤ) : (arangeZ lo hi).length = (hi - lo).toNat := by
  rw [arangeZ, List.length_map, List.length_range]

theorem rangeZ_length (a b : ℤ) : (rangeZ a b).length = (b + 1 - a).toNat := by
  rw [rangeZ, List.length_map, List.length_range]

theorem rangeZ_nil (a b : ℤ) (h : b < a) : rangeZ a b = [] := by
  rw [rangeZ, Int.toNat_of_nonpos (by omega : b + 1 - a ≤ 0)]
  rfl

theorem rangeZ_cons (a b : ℤ) (h : a ≤ b) : rangeZ a b = a :: rangeZ (a + 1) b := by
  have h1 : (b + 1 - a).toNat = (b + 1 - (a + 1)).toNat + 1 := by omega
  rw [rangeZ, h1, List.range_succ_eq_map, List.map_cons, List.map_map, rangeZ]
  congr 1
  · simp
  · apply List.map_congr_left
    intro k _
    simp only [Function.comp_apply]
    push_cast
    ring

theorem rangeZ_append (a b c : ℤ) (hab : a ≤ b + 1) (hbc : b ≤ c) :
    rangeZ a c = rangeZ a b ++ rangeZ (b + 1) c := by
  have hsplit : (c + 1 - a).toNat = (b + 1 - a).toNat + (c + 1 - (b + 1)).toNat := by
    omega
  rw [rangeZ, hsplit, List.range_add, List.map_append, List.map_map, rangeZ, rangeZ]
  congr 1
  apply List.map_congr_left
  intro k _
  simp only [Function.comp_apply]
  have hcast : ((b + 1 - a).toNat : ℤ) = b + 1 - a := by omega
  push_cast [hcast]
  ring

theorem arangeZ_eq_rangeZ (lo hi : ℤ) : arangeZ lo hi = rangeZ lo (hi - 1) := by
  rw [arangeZ, rangeZ]
  congr 2
  omega

theorem linspace_length (a b : ℚ) (n : ℕ) : (linspace a b n).length = n := by
  by_cases h : n ≤ 1 <;> simp [linspace, h]

/-- For each of the four recognized modes, the gap fill succeeds and produces
exactly `n` values (one per synthesized step). -/
theorem gapFill_length (fill : String)
    (hmode : fill = "midpoint" ∨ fill = "linear" ∨ fill = "begin" ∨ fill = "end")
    (a b : ℚ) (n : ℕ) :
    ∃ out, gapFill fill a b n = .ok out ∧ out.length = n := by
  rcases hmode with h | h | h | h <;> subst h <;>
    simp [gapFill, npOnes, linspace_length]

/-! ### Structural lemmas about the gap-filling loop -/

/-- When every remaining consecutive difference is at most 1 the loop never
enters the gap branch: it copies its input unchanged, regardless of the fill
mode. -/
theorem fillCoordsAux_nogap (fill : String) :
    ∀ (steps : List ℤ) (lons lats : List ℚ) (prev : ℤ) (pLon pLat : ℚ),
      lons.length = steps.length → lats.length = steps.length →
      List.Chain (fun a b => b - a ≤ 1) prev steps →
      fillCoordsAux fill prev pLon pLat steps lons lats = .ok (steps, lons, lats)
  | [], [], [], _, _, _, _, _, _ => rfl
  | step :: ss, lon :: ls, lat :: ts, prev, pLon, pLat, hl, ht, hc => by
    rw [List.chain_cons] at hc
    simp only [fillCoordsAux, if_neg (by omega : ¬ step - prev > 1)]
    rw [fillCoordsAux_nogap fill ss ls ts step lon lat
      (by simpa using hl) (by simpa using ht) hc.2]

theorem chain_lt_le_getLast :
    ∀ (ss : List ℤ) (a : ℤ), List.Chain (· < ·) a ss →
      a ≤ (a :: ss).getLast (List.cons_ne_nil a ss)
  | [], a, _ => le_refl a
  | b :: bs, a, h => by
    rw [List.chain_cons] at h
    have hrec := chain_lt_le_getLast bs b h.2
    rw [List.getLast_cons (List.cons_ne_nil b bs)]
    omega

theorem rangeZ_chain' :
    ∀ (n : ℕ) (a b : ℤ), (b + 1 - a).toNat = n → (rangeZ a b).Chain' (· < ·)
  | 0, a, b, h => by
    rw [rangeZ_nil a b (by omega)]
    exact List.chain'_nil
  | n + 1, a, b, h => by
    rw [rangeZ_cons a b (by omega), List.chain'_cons']
    refine ⟨?_, rangeZ_chain' n (a + 1) b (by omega)⟩
    intro y hy
    rcases Nat.eq_zero_or_pos n with hn | hn
    · rw [rangeZ_nil (a + 1) b (by omega)] at hy
      simp at hy
    · rw [rangeZ_cons (a + 1) b (by omega)] at hy
      simp only [List.head?_cons, Option.mem_def, Option.some_inj] at hy
      omega

theorem fillCoordsAux_dense (fill : String)
    (hmode : fill = "midpoint" ∨ fill = "linear" ∨ fill = "begin" ∨ fill = "end") :
    ∀ (steps : List ℤ) (lons lats : List ℚ) (prev : ℤ) (pLon pLat : ℚ),
      lons.length = steps.length → lats.length = steps.length →
      List.Chain (· < ·) prev steps →
      ∃ l t,
        fillCoordsAux fill prev pLon pLat steps lons lats =
          .ok (rangeZ (prev + 1) ((prev :: steps).getLast (List.cons_ne_nil prev steps)),
               l, t) ∧
        l.length =
          (rangeZ (prev + 1)
            ((prev :: steps).getLast (List.cons_ne_nil prev steps))).length ∧
        t.length =
          (rangeZ (prev + 1)
            ((prev :: steps).getLast (List.cons_ne_nil prev steps))).length
  | [], [], [], prev, pLon, pLat, _, _, _ => by
    have h0 : rangeZ (prev + 1)
        (([prev] : List ℤ).getLast (List.cons_ne_nil prev [])) = [] := by
      have h1 : ([prev] : List ℤ).getLast (List.cons_ne_nil prev []) = prev := rfl
      rw [h1]
      exact rangeZ_nil _ _ (by omega)
    refine ⟨[], [], ?_, by simp [rangeZ_length], by simp [rangeZ_length]⟩
    rw [h0]
    rfl
  | step :: ss, lon :: ls, lat :: ts, prev, pLon, pLat, hl, ht, hc => by
    rw [List.chain_cons] at hc
    obtain ⟨hps, hcs⟩ := hc
    obtain ⟨l', t', hrec, hll, htl⟩ :=
      fillCoordsAux_dense fill hmode ss ls ts step lon lat
        (by simpa using hl) (by simpa using ht) hcs
    have hlast : ((prev :: step :: ss).getLast (List.cons_ne_nil _ _)) =
        ((step :: ss).getLast (List.cons_ne_nil step ss)) :=
      List.getLast_cons (List.cons_ne_nil step ss)
    have hstep_le : step ≤ (step :: ss).getLast (List.cons_ne_nil step ss) :=
      chain_lt_le_getLast ss step hcs
    have hsplit : rangeZ (prev + 1) ((step :: ss).getLast (List.cons_ne_nil step ss)) =
        rangeZ (prev + 1) (step - 1) ++
          rangeZ (step - 1 + 1) ((step :: ss).getLast (List.cons_ne_nil step ss)) :=
      rangeZ_append _ _ _ (by omega) (by omega)
    by_cases hgap : step - prev > 1
    · obtain ⟨lonFill, hlf, hlfl⟩ :=
        gapFill_length fill hmode pLon lon (arangeZ (prev + 1) step).length
      obtain ⟨latFill, htf, htfl⟩ :=
        gapFill_length fill hmode pLat lat (arangeZ (prev + 1) step).length
      refine ⟨lonFill ++ lon :: l', latFill ++ lat :: t', ?_, ?_, ?_⟩
      · simp only [fillCoordsAux, if_pos hgap, hlf, htf, hrec]
        rw [hlast, hsplit, show step - 1 + 1 = step by omega,
          rangeZ_cons step _ hstep_le, ← arangeZ_eq_rangeZ]
      · rw [hlast, hsplit, show step - 1 + 1 = step by omega,
          rangeZ_cons step _ hstep_le]
        simp only [List.length_append, List.length_cons]
        rw [hlfl, hll, arangeZ_length]
        simp only [rangeZ_length]
        omega
      · rw [hlast, hsplit, show step - 1 + 1 = step by omega,
          rangeZ_cons step _ hstep_le]
        simp only [List.length_append, List.length_cons]
        rw [htfl, htl, arangeZ_length]
        simp only [rangeZ_length]
        omega
    · have hstep : step = prev + 1 := by omega
      refine ⟨lon :: l', lat :: t', ?_, ?_, ?_⟩
      · simp only [fillCoordsAux, if_neg hgap, hrec]
        rw [hlast, rangeZ_cons (prev + 1) _ (by omega), ← hstep]
      · rw [hlast, rangeZ_cons (prev + 1) _ (by omega)]
        simp only [List.length_cons]
        rw [hll, ← hstep]
      · rw [hlast, rangeZ_cons (prev + 1) _ (by omega)]
        simp only [List.length_cons]
        rw [htl, ← hstep]

/-! ### Lemmas about the distance accumulator -/

theorem geodistLoop_eq (rest : List (ℝ × ℝ)) :
    ∀ (dist : ℝ) (l t : ℝ),
      geodistLoop dist l t rest = dist + pairwiseSum ((l, t) :: rest) := by
  induction rest with
  | nil => intro dist l t; simp [geodistLoop, pairwiseSum]
  | cons p rest ih =>
    intro dist l t
    obtain ⟨l2, t2⟩ := p
    rw [geodistLoop, ih, pairwiseSum]
    ring

theorem geodist_eq_pairwiseSum (lons lats : List ℝ)
    (hlen : lons.length = lats.length) :
    geodist lons lats = .ok (pairwiseSum (lons.zip lats)) := by
  rw [geodist, if_neg (by omega)]
  rcases hz : lons.zip lats with _ | ⟨⟨l, t⟩, rest⟩
  · simp [pairwiseSum]
  · show Except.ok (geodistLoop 0 l t rest) = Except.ok (pairwiseSum ((l, t) :: rest))
    rw [geodistLoop_eq, zero_add]

theorem radians_zero : radians 0 = 0 := by
  rw [radians]
  ring

theorem haversine_self_helper (lon lat : ℝ) : haversine lon lat lon lat = 0 := by
  rw [haversine, sub_self, sub_self]
  norm_num [arctan2, Real.arctan_zero]

theorem haversine_symm_helper (lon1 lat1 lon2 lat2 : ℝ) :
    haversine lon1 lat1 lon2 lat2 = haversine lon2 lat2 lon1 lat1 := by
  have key : ∀ u v : ℝ, Real.sin ((u - v) / 2) ^ 2 = Real.sin ((v - u) / 2) ^ 2 := by
    intro u v
    rw [show (u - v) / 2 = -((v - u) / 2) by ring, Real.sin_neg, neg_sq]
  rw [haversine, haversine, key (radians lat1) (radians lat2),
    key (radians lon1) (radians lon2),
    mul_comm (Real.cos (radians lat2)) (Real.cos (radians lat1))]

/-! ### Claim theorems and witnesses -/

theorem fillCoords_cons (fill : String) (s : ℤ) (ss : List ℤ)
    (l : ℚ) (ls : List ℚ) (t : ℚ) (ts : List ℚ) :
    fillCoords (s :: ss) (l :: ls) (t :: ts) fill =
      match fillCoordsAux fill s l t ss ls ts with
      | .error e => .error e
      | .ok (rs, rl, rt) => .ok (s :: rs, l :: rl, t :: rt) := by
  show fillCoordsAux fill s l t (s :: ss) (l :: ls) (t :: ts) = _
  simp only [fillCoordsAux, if_neg (by omega : ¬ s - s > 1)]

/-- C3: for every valid input (equal lengths, strictly increasing steps) and
every recognized fill mode, `fillCoords` succeeds and returns a step sequence
that is exactly the contiguous integer range from the first to the last input
step (hence strictly increasing, with every integer in between appearing
exactly once, and `step - prev - 1` synthesized points per gap), with
longitude and latitude outputs of the same length; moreover each gap's fill
arrays have length equal to the gap size. -/
theorem fillCoords_dense_contiguous (steps : List ℤ) (lons lats : List ℚ)
    (fill : String)
    (hmode : fill = "midpoint" ∨ fill = "linear" ∨ fill = "begin" ∨ fill = "end")
    (hne : steps ≠ [])
    (hlon : lons.length = steps.length) (hlat : lats.length = steps.length)
    (hinc : steps.Chain' (· < ·)) :
    ∃ l t,
      fillCoords steps lons lats fill =
        .ok (rangeZ (steps.head hne) (steps.getLast hne), l, t) ∧
      (rangeZ (steps.head hne) (steps.getLast hne)).Chain' (· < ·) ∧
      l.length = (rangeZ (steps.head hne) (steps.getLast hne)).length ∧
      t.length = (rangeZ (steps.head hne) (steps.getLast hne)).length ∧
      (∀ (a b : ℚ) (prev step : ℤ), step - prev > 1 →
        ∃ out, gapFill fill a b (arangeZ (prev + 1) step).length = .ok out ∧
          out.length = (step - prev - 1).toNat) := by
  match steps, lons, lats with
  | s :: ss, l0 :: ls, t0 :: ts =>
    have hchain : List.Chain (· < ·) s ss := hinc
    obtain ⟨l', t', hrec, hll, htl⟩ :=
      fillCoordsAux_dense fill hmode ss ls ts s l0 t0
        (by simpa using hlon) (by simpa using hlat) hchain
    have hs_le : s ≤ (s :: ss).getLast (List.cons_ne_nil s ss) :=
      chain_lt_le_getLast ss s hchain
    have hrange : rangeZ ((s :: ss).head hne) ((s :: ss).getLast hne) =
        s :: rangeZ (s + 1) ((s :: ss).getLast (List.cons_ne_nil s ss)) := by
      rw [List.head_cons]
      exact rangeZ_cons s _ hs_le
    refine ⟨l0 :: l', t0 :: t', ?_, ?_, ?_, ?_, ?_⟩
    · rw [fillCoords_cons, hrec, hrange]
    · rw [hrange, ← rangeZ_cons s _ hs_le]
      exact rangeZ_chain' _ s _ rfl
    · rw [hrange]
      simp only [List.length_cons]
      rw [hll]
    · rw [hrange]
      simp only [List.length_cons]
      rw [htl]
    · intro a b prev step hgap
      obtain ⟨out, hout, hlen⟩ := gapFill_length fill hmode a b (arangeZ (prev + 1) step).length
      exact ⟨out, hout, by rw [hlen, arangeZ_length]; congr 1; omega⟩

/-- C8: gap-filling a valid input whose consecutive steps all differ by
exactly 1 returns the input sequences unchanged, for any fill mode. -/
theorem fillCoords_nogap_id (steps : List ℤ) (lons lats : List ℚ) (fill : String)
    (hne : steps ≠ [])
    (hlon : lons.length = steps.length) (hlat : lats.length = steps.length)
    (hdense : steps.Chain' (fun a b => b = a + 1)) :
    fillCoords steps lons lats fill = .ok (steps, lons, lats) := by
  match steps, lons, lats with
  | s :: ss, l0 :: ls, t0 :: ts =>
    have hchain : List.Chain (fun a b => b - a ≤ 1) s ss := by
      have h1 : List.Chain (fun a b : ℤ => b = a + 1) s ss := hdense
      exact List.Chain.imp (fun a b h => by omega) h1
    rw [fillCoords_cons,
      fillCoordsAux_nogap fill ss ls ts s l0 t0 (by simpa using hlon)
        (by simpa using hlat) hchain]

/-- C9: on a valid input with no gaps, `fillCoords` raises no error and its
output does not depend on the fill-mode string (recognized or not): any two
calls differing only in the mode return identical results, because the mode
is only inspected inside the gap branch. -/
theorem fillCoords_mode_irrelevant_nogap (steps : List ℤ) (lons lats : List ℚ)
    (fill1 fill2 : String) (hne : steps ≠ [])
    (hlon : lons.length = steps.length) (hlat : lats.length = steps.length)
    (hinc : steps.Chain' (· < ·))
    (hnogap : steps.Chain' (fun a b => b - a ≤ 1)) :
    fillCoords steps lons lats fill1 = .ok (steps, lons, lats) ∧
    fillCoords steps lons lats fill1 = fillCoords steps lons lats fill2 := by
  match steps, lons, lats with
  | s :: ss, l0 :: ls, t0 :: ts =>
    have hchain : List.Chain (fun a b => b - a ≤ 1) s ss := hnogap
    have h1 := fillCoordsAux_nogap fill1 ss ls ts s l0 t0 (by simpa using hlon)
      (by simpa using hlat) hchain
    have h2 := fillCoordsAux_nogap fill2 ss ls ts s l0 t0 (by simpa using hlon)
      (by simpa using hlat) hchain
    constructor
    · rw [fillCoords_cons, h1]
    · rw [fillCoords_cons, fillCoords_cons, h1, h2]

theorem fillCoordsAux_gap_error (fill : String)
    (hmode : fill ≠ "midpoint" ∧ fill ≠ "linear" ∧ fill ≠ "begin" ∧ fill ≠ "end") :
    ∀ (steps : List ℤ) (lons lats : List ℚ) (prev : ℤ) (pLon pLat : ℚ),
      lons.length = steps.length → lats.length = steps.length →
      ¬ List.Chain (fun a b => b - a ≤ 1) prev steps →
      fillCoordsAux fill prev pLon pLat steps lons lats = .error "Invalid fill type."
  | [], [], [], prev, _, _, _, _, hc => absurd List.Chain.nil hc
  | step :: ss, lon :: ls, lat :: ts, prev, pLon, pLat, hl, ht, hc => by
    obtain ⟨h1, h2, h3, h4⟩ := hmode
    by_cases hgap : step - prev > 1
    · have hgf : gapFill fill pLon lon (arangeZ (prev + 1) step).length =
          .error "Invalid fill type." := by
        rw [gapFill, if_neg h1, if_neg h2, if_neg h3, if_neg h4]
      simp only [fillCoordsAux, if_pos hgap, hgf]
    · have hc' : ¬ List.Chain (fun a b : ℤ => b - a ≤ 1) step ss := by
        intro h
        exact hc (List.chain_cons.mpr ⟨by omega, h⟩)
      simp only [fillCoordsAux, if_neg hgap]
      rw [fillCoordsAux_gap_error fill ⟨h1, h2, h3, h4⟩ ss ls ts step lon lat
        (by simpa using hl) (by simpa using ht) hc']

/-- C2 (amended): for every valid input that contains at least one gap
(some consecutive step difference exceeds 1) and every fill-mode string other
than the four recognized ones, `fillCoords` fails with the invalid-fill-type
error and returns no partial output. -/
theorem fillCoords_unknown_mode_gap_error (steps : List ℤ) (lons lats : List ℚ)
    (fill : String)
    (hmode : fill ≠ "midpoint" ∧ fill ≠ "linear" ∧ fill ≠ "begin" ∧ fill ≠ "end")
    (hlon : lons.length = steps.length) (hlat : lats.length = steps.length)
    (hinc : steps.Chain' (· < ·))
    (hgap : ¬ steps.Chain' (fun a b => b - a ≤ 1)) :
    fillCoords steps lons lats fill = .error "Invalid fill type." := by
  match steps, lons, lats with
  | [], _, _ => exact absurd trivial hgap
  | s :: ss, [], _ => simp at hlon
  | s :: ss, l0 :: ls, [] => simp at hlat
  | s :: ss, l0 :: ls, t0 :: ts =>
    have hc : ¬ List.Chain (fun a b : ℤ => b - a ≤ 1) s ss := hgap
    rw [fillCoords_cons,
      fillCoordsAux_gap_error fill hmode ss ls ts s l0 t0 (by simpa using hlon)
        (by simpa using hlat) hc]

theorem gapFill_midpoint_eq (a b : ℚ) (n : ℕ) :
    gapFill "midpoint" a b n = .ok (List.replicate n ((b + a) / 2)) := by
  simp [gapFill, npOnes, List.map_replicate]

theorem gapFill_begin_eq (a b : ℚ) (n : ℕ) :
    gapFill "begin" a b n = .ok (List.replicate n a) := by
  simp [gapFill, npOnes, List.map_replicate]

theorem gapFill_end_eq (a b : ℚ) (n : ℕ) :
    gapFill "end" a b n = .ok (List.replicate n b) := by
  simp [gapFill, npOnes, List.map_replicate]

theorem gapFill_linear_eq (a b : ℚ) (n : ℕ) :
    gapFill "linear" a b n = .ok (linspace a b n) := by
  simp [gapFill]

theorem arangeZ_length_toNat (prev step : ℤ) :
    (arangeZ (prev + 1) step).length = (step - prev - 1).toNat := by
  rw [arangeZ_length]
  congr 1
  omega

/-- C4: at any gap inside a track, the constant fill modes synthesize
`step - prev - 1` identical points: `midpoint` uses the arithmetic mean of
the two bracketing coordinates, `begin` copies the coordinate immediately
before the gap, and `end` copies the coordinate immediately after it. -/
theorem fillCoordsAux_constant_modes (prev step : ℤ) (pLon pLat lon lat : ℚ)
    (ss : List ℤ) (ls ts : List ℚ) (rs : List ℤ) (rl rt : List ℚ)
    (hgap : step - prev > 1) :
    (fillCoordsAux "midpoint" step lon lat ss ls ts = .ok (rs, rl, rt) →
      fillCoordsAux "midpoint" prev pLon pLat (step :: ss) (lon :: ls) (lat :: ts) =
        .ok (arangeZ (prev + 1) step ++ step :: rs,
          List.replicate (step - prev - 1).toNat ((lon + pLon) / 2) ++ lon :: rl,
          List.replicate (step - prev - 1).toNat ((lat + pLat) / 2) ++ lat :: rt)) ∧
    (fillCoordsAux "begin" step lon lat ss ls ts = .ok (rs, rl, rt) →
      fillCoordsAux "begin" prev pLon pLat (step :: ss) (lon :: ls) (lat :: ts) =
        .ok (arangeZ (prev + 1) step ++ step :: rs,
          List.replicate (step - prev - 1).toNat pLon ++ lon :: rl,
          List.replicate (step - prev - 1).toNat pLat ++ lat :: rt)) ∧
    (fillCoordsAux "end" step lon lat ss ls ts = .ok (rs, rl, rt) →
      fillCoordsAux "end" prev pLon pLat (step :: ss) (lon :: ls) (lat :: ts) =
        .ok (arangeZ (prev + 1) step ++ step :: rs,
          List.replicate (step - prev - 1).toNat lon ++ lon :: rl,
          List.replicate (step - prev - 1).toNat lat ++ lat :: rt)) := by
  refine ⟨fun hrec => ?_, fun hrec => ?_, fun hrec => ?_⟩
  · simp only [fillCoordsAux, if_pos hgap, gapFill_midpoint_eq, hrec,
      arangeZ_length_toNat]
  · simp only [fillCoordsAux, if_pos hgap, gapFill_begin_eq, hrec,
      arangeZ_length_toNat]
  · simp only [fillCoordsAux, if_pos hgap, gapFill_end_eq, hrec,
      arangeZ_length_toNat]

theorem linspace_head_getLast (a b : ℚ) (n : ℕ) (hn : 2 ≤ n) :
    (linspace a b n).head? = some a ∧ (linspace a b n).getLast? = some b := by
  have hne : ¬ n ≤ 1 := by omega
  rw [linspace, if_neg hne]
  constructor
  · rcases n with _ | m
    · omega
    · rw [List.range_succ_eq_map]
      simp
  · rcases n with _ | m
    · omega
    · rw [List.range_succ, List.map_append]
      simp only [List.map_cons, List.map_nil, List.getLast?_append,
        List.getLast?_singleton]
      have hm : (m : ℚ) ≠ 0 := Nat.cast_ne_zero.mpr (by omega)
      show some _ = some b
      congr 1
      push_cast
      rw [show ((m : ℚ) + 1 - 1) = (m : ℚ) by ring]
      rw [mul_div_assoc, div_self hm, mul_one]
      ring

theorem linspace_one (a b : ℚ) : linspace a b 1 = [a] := by
  simp [linspace]

theorem linspace_consecutive_diff (a b : ℚ) (n : ℕ) (hn : 2 ≤ n)
    (i : ℕ) (hi : i + 1 < n) :
    ∃ x y, (linspace a b n)[i]? = some x ∧ (linspace a b n)[i + 1]? = some y ∧
      y - x = (b - a) / ((n : ℚ) - 1) := by
  have hne : ¬ n ≤ 1 := by omega
  refine ⟨a + (b - a) * (i : ℚ) / ((n : ℚ) - 1),
    a + (b - a) * ((i : ℚ) + 1) / ((n : ℚ) - 1), ?_, ?_, by ring⟩
  · rw [linspace, if_neg hne]
    rw [List.getElem?_map, List.getElem?_range (by omega : i < n)]
    rfl
  · rw [linspace, if_neg hne]
    rw [List.getElem?_map, List.getElem?_range hi]
    show some _ = some _
    congr 1
    push_cast
    ring

/-- C10: in `linear` mode the synthesized coordinates of a gap are the
endpoint-inclusive evenly spaced sequence (`np.linspace`) from the before-gap
coordinate to the after-gap coordinate with `step - prev - 1` samples: with
at least two synthesized points the first equals the coordinate before the
gap and the last equals the coordinate after it, consecutive samples differ
by `(b - a)/(n - 1)`, and a gap with exactly one synthesized point
(`step - prev = 2`) gets the before-gap coordinate. -/
theorem fillCoordsAux_linear_inclusive (prev step : ℤ) (pLon pLat lon lat : ℚ)
    (ss : List ℤ) (ls ts : List ℚ) (rs : List ℤ) (rl rt : List ℚ)
    (hgap : step - prev > 1)
    (hrec : fillCoordsAux "linear" step lon lat ss ls ts = .ok (rs, rl, rt)) :
    fillCoordsAux "linear" prev pLon pLat (step :: ss) (lon :: ls) (lat :: ts) =
      .ok (arangeZ (prev + 1) step ++ step :: rs,
        linspace pLon lon (step - prev - 1).toNat ++ lon :: rl,
        linspace pLat lat (step - prev - 1).toNat ++ lat :: rt) ∧
    (∀ (a b : ℚ) (n : ℕ), 2 ≤ n →
      (linspace a b n).head? = some a ∧ (linspace a b n).getLast? = some b) ∧
    (∀ (a b : ℚ), linspace a b 1 = [a]) ∧
    (∀ (a b : ℚ) (n : ℕ), 2 ≤ n → ∀ i : ℕ, i + 1 < n →
      ∃ x y, (linspace a b n)[i]? = some x ∧ (linspace a b n)[i + 1]? = some y ∧
        y - x = (b - a) / ((n : ℚ) - 1)) ∧
    (step - prev = 2 →
      linspace pLon lon (step - prev - 1).toNat = [pLon] ∧
      linspace pLat lat (step - prev - 1).toNat = [pLat]) := by
  refine ⟨?_, fun a b n hn => linspace_head_getLast a b n hn, linspace_one,
    fun a b n hn i hi => linspace_consecutive_diff a b n hn i hi, fun h2 => ?_⟩
  · simp only [fillCoordsAux, if_pos hgap, gapFill_linear_eq, hrec,
      arangeZ_length_toNat]
  · rw [show ((step - prev - 1).toNat) = 1 by omega]
    exact ⟨linspace_one pLon lon, linspace_one pLat lat⟩

/-- C1: evaluation of `fillCoords` at the spec's own example, a gap between
(step 2, lon 0) and (step 5, lon 3) in `linear` mode.  The code synthesizes
lon values 0 and 3 at steps 3 and 4 (`np.linspace` over `gap - 1` points is
endpoint-inclusive), not the strictly interior, evenly spaced values 1 and 2
that the specification requires. -/
theorem fillCoords_linear_gap_example :
    fillCoords [2, 5] [0, 3] [0, 0] "linear" =
      .ok ([2, 3, 4, 5], [0, 0, 3, 3], [0, 0, 0, 0]) := by
  simp +decide [fillCoords, fillCoordsAux, gapFill, linspace, arangeZ, npOnes]
  norm_num [List.range_succ]

/-- C2 (counterexample): an unrecognized fill mode does not fail on a valid
input without gaps — the mode is never inspected, and the input is returned
unchanged, contradicting the claim that every unrecognized mode fails. -/
theorem fillCoords_unknown_mode_no_gap_ok :
    fillCoords [1, 2] [0, 0] [0, 0] "cubic" = .ok ([1, 2], [0, 0], [0, 0]) ∧
    ∀ e, fillCoords [1, 2] [0, 0] [0, 0] "cubic" ≠ .error e := by
  have h : fillCoords [1, 2] [0, 0] [0, 0] "cubic" = .ok ([1, 2], [0, 0], [0, 0]) := by
    simp +decide [fillCoords, fillCoordsAux, gapFill, linspace, arangeZ, npOnes]
  exact ⟨h, fun e hcon => by rw [h] at hcon; exact Except.noConfusion hcon⟩

theorem pairwiseSum_short (l : List (ℝ × ℝ)) (h : l.length ≤ 1) :
    pairwiseSum l = 0 := by
  match l with
  | [] => rfl
  | [p] => obtain ⟨a, b⟩ := p; rfl
  | p :: q :: rest => simp at h

/-- C5: for equal-length coordinate sequences, `geodist` returns the sum of
`haversine` over every consecutive pair of points in input order, and for
sequences of length 0 or 1 it returns 0. -/
theorem geodist_sum_consecutive (lons lats : List ℝ)
    (hlen : lons.length = lats.length) :
    geodist lons lats = .ok (pairwiseSum (lons.zip lats)) ∧
    (lons.length ≤ 1 → geodist lons lats = .ok 0) := by
  refine ⟨geodist_eq_pairwiseSum lons lats hlen, fun h1 => ?_⟩
  rw [geodist_eq_pairwiseSum lons lats hlen,
    pairwiseSum_short _ (by rw [List.length_zip]; omega)]

/-- C6: for longitude and latitude sequences of different lengths,
`geodist` fails with the length-mismatch error and produces no result. -/
theorem geodist_length_mismatch (lons lats : List ℝ)
    (h : lons.length ≠ lats.length) :
    geodist lons lats = .error "Coordinate lists must have the same length." := by
  rw [geodist, if_pos h]

/-- C7: `haversine` applied to any pair of coincident points yields 0 (in
particular at the origin), and it is symmetric in its two points. -/
theorem haversine_coincident_zero_and_symm :
    (∀ lon lat : ℝ, haversine lon lat lon lat = 0) ∧
    haversine 0 0 0 0 = 0 ∧
    ∀ lon1 lat1 lon2 lat2 : ℝ,
      haversine lon1 lat1 lon2 lat2 = haversine lon2 lat2 lon1 lat1 :=
  ⟨haversine_self_helper, haversine_self_helper 0 0, haversine_symm_helper⟩

/-- Witness for C5 at a concrete two-point input. -/
theorem geodist_sum_witness :
    (geodist [0, 90] [0, 0] = .ok (pairwiseSum ([0, 90].zip [0, 0])) ∧
      (([0, 90] : List ℝ).length ≤ 1 → geodist [0, 90] [0, 0] = .ok 0)) :=
  geodist_sum_consecutive [0, 90] [0, 0] rfl

/-- Witness for C6 at a concrete mismatched input. -/
theorem geodist_mismatch_witness :
    geodist [0] [] = .error "Coordinate lists must have the same length." :=
  geodist_length_mismatch [0] [] (by simp)

/-- Witness for the amended C2 at a concrete gapped input. -/
theorem fillCoords_unknown_mode_gap_error_witness :
    fillCoords [1, 3] [0, 1] [0, 0] "cubic" = .error "Invalid fill type." :=
  fillCoords_unknown_mode_gap_error [1, 3] [0, 1] [0, 0] "cubic"
    ⟨by decide, by decide, by decide, by decide⟩ rfl rfl
    (by simp [List.chain'_cons]) (by simp [List.chain'_cons])

/-- Witness for C3 at a concrete gapped input. -/
theorem fillCoords_dense_contiguous_witness :
    ∃ l t,
      fillCoords [2, 5] [0, 3] [0, 0] "begin" =
        .ok (rangeZ (([2, 5] : List ℤ).head (by simp))
          (([2, 5] : List ℤ).getLast (by simp)), l, t) ∧
      (rangeZ (([2, 5] : List ℤ).head (by simp))
        (([2, 5] : List ℤ).getLast (by simp))).Chain' (· < ·) ∧
      l.length = (rangeZ (([2, 5] : List ℤ).head (by simp))
        (([2, 5] : List ℤ).getLast (by simp))).length ∧
      t.length = (rangeZ (([2, 5] : List ℤ).head (by simp))
        (([2, 5] : List ℤ).getLast (by simp))).length ∧
      (∀ (a b : ℚ) (prev step : ℤ), step - prev > 1 →
        ∃ out, gapFill "begin" a b (arangeZ (prev + 1) step).length = .ok out ∧
          out.length = (step - prev - 1).toNat) :=
  fillCoords_dense_contiguous [2, 5] [0, 3] [0, 0] "begin"
    (Or.inr (Or.inr (Or.inl rfl))) (by simp) rfl rfl (by simp [List.chain'_cons])

/-- Witness for C8 at a concrete gap-free input. -/
theorem fillCoords_nogap_id_witness :
    fillCoords [1, 2, 3] [4, 5, 6] [7, 8, 9] "bogus" =
      .ok ([1, 2, 3], [4, 5, 6], [7, 8, 9]) :=
  fillCoords_nogap_id [1, 2, 3] [4, 5, 6] [7, 8, 9] "bogus" (by simp) rfl rfl
    (by norm_num [List.chain'_cons])

/-- Witness for C9 at a concrete gap-free input and two modes. -/
theorem fillCoords_mode_irrelevant_nogap_witness :
    fillCoords [1, 2, 3] [4, 5, 6] [7, 8, 9] "linear" =
      .ok ([1, 2, 3], [4, 5, 6], [7, 8, 9]) ∧
    fillCoords [1, 2, 3] [4, 5, 6] [7, 8, 9] "linear" =
      fillCoords [1, 2, 3] [4, 5, 6] [7, 8, 9] "cubic" :=
  fillCoords_mode_irrelevant_nogap [1, 2, 3] [4, 5, 6] [7, 8, 9] "linear" "cubic"
    (by simp) rfl rfl (by norm_num [List.chain'_cons])
    (by norm_num [List.chain'_cons])

/-- Witness for C4 at a concrete gap. -/
theorem fillCoordsAux_constant_modes_witness :
    (fillCoordsAux "midpoint" 5 3 0 [] [] [] = .ok ([], [], []) →
      fillCoordsAux "midpoint" 2 0 0 [5] [3] [0] =
        .ok (arangeZ (2 + 1) 5 ++ 5 :: [],
          List.replicate ((5 : ℤ) - 2 - 1).toNat ((3 + 0) / 2) ++ 3 :: [],
          List.replicate ((5 : ℤ) - 2 - 1).toNat ((0 + 0) / 2) ++ 0 :: [])) ∧
    (fillCoordsAux "begin" 5 3 0 [] [] [] = .ok ([], [], []) →
      fillCoordsAux "begin" 2 0 0 [5] [3] [0] =
        .ok (arangeZ (2 + 1) 5 ++ 5 :: [],
          List.replicate ((5 : ℤ) - 2 - 1).toNat 0 ++ 3 :: [],
          List.replicate ((5 : ℤ) - 2 - 1).toNat 0 ++ 0 :: [])) ∧
    (fillCoordsAux "end" 5 3 0 [] [] [] = .ok ([], [], []) →
      fillCoordsAux "end" 2 0 0 [5] [3] [0] =
        .ok (arangeZ (2 + 1) 5 ++ 5 :: [],
          List.replicate ((5 : ℤ) - 2 - 1).toNat 3 ++ 3 :: [],
          List.replicate ((5 : ℤ) - 2 - 1).toNat 0 ++ 0 :: [])) :=
  fillCoordsAux_constant_modes 2 5 0 0 3 0 [] [] [] [] [] [] (by decide)

/-- Witness for C10 at a concrete gap. -/
theorem fillCoordsAux_linear_inclusive_witness :
    fillCoordsAux "linear" 2 0 0 [5] [3] [0] =
      .ok (arangeZ (2 + 1) 5 ++ 5 :: [],
        linspace 0 3 ((5 : ℤ) - 2 - 1).toNat ++ 3 :: [],
        linspace 0 0 ((5 : ℤ) - 2 - 1).toNat ++ 0 :: []) ∧
    (∀ (a b : ℚ) (n : ℕ), 2 ≤ n →
      (linspace a b n).head? = some a ∧ (linspace a b n).getLast? = some b) ∧
    (∀ (a b : ℚ), linspace a b 1 = [a]) ∧
    (∀ (a b : ℚ) (n : ℕ), 2 ≤ n → ∀ i : ℕ, i + 1 < n →
      ∃ x y, (linspace a b n)[i]? = some x ∧ (linspace a b n)[i + 1]? = some y ∧
        y - x = (b - a) / ((n : ℚ) - 1)) ∧
    ((5 : ℤ) - 2 = 2 →
      linspace 0 3 ((5 : ℤ) - 2 - 1).toNat = [0] ∧
      linspace 0 0 ((5 : ℤ) - 2 - 1).toNat = [0]) :=
  fillCoordsAux_linear_inclusive 2 5 0 0 3 0 [] [] [] [] [] [] (by decide) rfl
